import Mathlib

/-!
Formal model of the metrics aggregation engine of node-red-contrib-metrics-collector.

The definitions below are a shallow embedding of the JavaScript sources
src/lib/metrics-collector.js (class MetricsCollector) and
src/lib/node-red-hooks.js (class NodeRedHooks):

* JavaScript strings are modelled as lists of characters (Str).
* JavaScript Map objects are modelled as association lists in insertion
  order: Map.set replaces the value of an existing key in place and
  appends a fresh key at the end, Map.delete removes the key, iteration
  follows the list order.  Plain objects used as dictionaries and Set
  objects are modelled the same way.
* Integer counts are Nat, clock readings (Date.now()) are Int, and
  rates / durations (which JavaScript keeps as doubles but which are
  always produced here by exact integer arithmetic and division) are Rat.
* prom-client instruments are modelled by their recorded values: a
  Counter or Gauge family is an association list from its label tuple to
  its value, a Histogram is the list of its observations in order.
* The single-threaded event loop is modelled explicitly: armed timeouts
  and intervals are recorded in the state, and the firing of a timeout is
  a separate step that consumes it and runs its callback.
-/

set_option maxHeartbeats 1000000

/-- JavaScript strings, modelled as lists of characters. -/
abbrev Str := List Char

/-- JavaScript Map.prototype.get: the value stored under key k, if present. -/
def jsMapGet {α β : Type} [DecidableEq α] (m : List (α × β)) (k : α) : Option β :=
  match m with
  | [] => none
  | kv :: rest => if kv.1 = k then some kv.2 else jsMapGet rest k

/-- JavaScript Map.prototype.set: replace the value of an existing key in
place, otherwise append the new key at the end (insertion order). -/
def jsMapSet {α β : Type} [DecidableEq α] (m : List (α × β)) (k : α) (v : β) :
    List (α × β) :=
  match m with
  | [] => [(k, v)]
  | kv :: rest => if kv.1 = k then (k, v) :: rest else kv :: jsMapSet rest k v

/-- JavaScript Map.prototype.delete: remove the entry stored under key k. -/
def jsMapDelete {α β : Type} [DecidableEq α] (m : List (α × β)) (k : α) :
    List (α × β) :=
  m.filter (fun kv => kv.1 ≠ k)

/-- JavaScript Set.prototype.add: append the element unless already present. -/
def jsSetAdd {α : Type} [DecidableEq α] (s : List α) (a : α) : List α :=
  if a ∈ s then s else s ++ [a]

/-- The colon delimiter of the composite metric keys. -/
def colonChar : Char := ':'

/-- The string a JavaScript array destructuring yields for a missing part
(the undefined value, as it prints inside a template literal). -/
def undefinedStr : Str := "undefined".toList

/-- JavaScript String.prototype.split(colon): cut the string at every
colon; splitting the empty string yields one empty field. -/
def splitColon : Str → List Str
  | [] => [[]]
  | c :: rest =>
      if c = colonChar then [] :: splitColon rest
      else
        match splitColon rest with
        | [] => [[c]]
        | p :: ps => (c :: p) :: ps

/-- Template literal of metrics-collector.js line 116: the composite key
nodeId colon nodeType colon flowId. -/
def joinKey (nodeId nodeTy flowId : Str) : Str :=
  nodeId ++ colonChar :: nodeTy ++ colonChar :: flowId

/-- Destructuring const [nodeId, nodeType, flowId] = key.split(colon)
as performed at metrics-collector.js lines 158, 174 and 201. -/
def splitTriple (k : Str) : Str × Str × Str :=
  let parts := splitColon k
  ((parts[0]?).getD undefinedStr, (parts[1]?).getD undefinedStr,
    (parts[2]?).getD undefinedStr)

/-- Increment of a prom-client Counter (or of a plain tally object) at one
label tuple: missing entries count as zero. -/
def promCounterInc {α : Type} [DecidableEq α] (m : List (α × Nat)) (labels : α) :
    List (α × Nat) :=
  jsMapSet m labels ((jsMapGet m labels).getD 0 + 1)

/-- State of the MetricsCollector class (metrics-collector.js): the options
bag and every instrument or tracking collection a claim touches.
collectIntervalOpt is options.collectInterval (milliseconds); the class
stores it but the rate tick never reads it. -/
structure Collector where
  collectIntervalOpt : Nat
  messagesTotal : List ((Str × Str × Str) × Nat)
  messageCounters : List (Str × Nat)
  lastMessageCounts : List (Str × Nat)
  messagesPerSecond : List ((Str × Str × Str) × ℚ)
  errorsTotal : List ((Str × Str × Str × Str) × Nat)
  nodeExecutionTime : List ((Str × Str × Str) × ℚ)
  flowsTotal : ℚ
  flowsActive : ℚ
  nodesTotal : List (Str × ℚ)
  nodesActive : List (Str × ℚ)
deriving DecidableEq

/-- A freshly constructed MetricsCollector with the default options:
every instrument at its initial value (prom-client gauges start at 0,
counter families and histograms empty) and empty tracking maps. -/
def initCollector : Collector :=
  { collectIntervalOpt := 5000
    messagesTotal := []
    messageCounters := []
    lastMessageCounts := []
    messagesPerSecond := []
    errorsTotal := []
    nodeExecutionTime := []
    flowsTotal := 0
    flowsActive := 0
    nodesTotal := []
    nodesActive := [] }

/-- recordMessage (metrics-collector.js lines 113-118): increment the
messagesTotal counter at the label triple and the messageCounters map at
the colon-joined key. -/
def recordMessage (c : Collector) (nodeId nodeTy flowId : Str) : Collector :=
  let key := joinKey nodeId nodeTy flowId
  { c with
    messagesTotal := promCounterInc c.messagesTotal (nodeId, nodeTy, flowId)
    messageCounters :=
      jsMapSet c.messageCounters key ((jsMapGet c.messageCounters key).getD 0 + 1) }

/-- recordError (metrics-collector.js lines 121-128). -/
def recordError (c : Collector) (nodeId nodeTy flowId errorTy : Str) : Collector :=
  { c with
    errorsTotal := promCounterInc c.errorsTotal (nodeId, nodeTy, flowId, errorTy) }

/-- recordNodeExecution (metrics-collector.js lines 131-137): the duration
is passed to Histogram.observe unchanged; no validation or clamping is
performed by this method.  (prom-client itself only rejects non-finite
numbers; every rational of this model is finite, and a negative finite
number is accepted and recorded by prom-client.) -/
def recordNodeExecution (c : Collector) (nodeId nodeTy flowId : Str)
    (duration : ℚ) : Collector :=
  { c with
    nodeExecutionTime :=
      c.nodeExecutionTime ++ [((nodeId, nodeTy, flowId), duration)] }

/-- Loop body of calculateMessagesPerSecond (metrics-collector.js lines
153-162) for one entry of messageCounters: read the previous sample
(missing counts as 0), clamp the delta at 0, divide by the literal 5,
write the rate gauge at the split key and store the current count. -/
def mpsStep (acc : Collector) (kv : Str × Nat) : Collector :=
  let lastCount : Nat := (jsMapGet acc.lastMessageCounts kv.1).getD 0
  let rate : ℚ := ((max 0 ((kv.2 : ℤ) - (lastCount : ℤ)) : ℤ) : ℚ) / 5
  { acc with
    messagesPerSecond := jsMapSet acc.messagesPerSecond (splitTriple kv.1) rate
    lastMessageCounts := jsMapSet acc.lastMessageCounts kv.1 kv.2 }

/-- calculateMessagesPerSecond (metrics-collector.js lines 150-163):
iterate the entries of messageCounters in insertion order.  The divisor is
the hardcoded constant 5 (comment: 5 second intervals); start() at lines
247-257 likewise hardcodes setInterval(..., 5000) and neither reads
options.collectInterval. -/
def calculateMessagesPerSecond (c : Collector) : Collector :=
  c.messageCounters.foldl mpsStep c

/-- Return value of calculateRealFlowMetrics. -/
structure FlowMetrics where
  totalFlows : Nat
  activeFlows : Nat
  flowIds : List Str
deriving DecidableEq

/-- Loop body of calculateRealFlowMetrics (metrics-collector.js lines
173-178): add the third split component to the uniqueFlows set when it is
present (not undefined from the destructuring), non-empty (truthy) and not
the literal string undefined. -/
def flowSetStep (s : List Str) (kv : Str × Nat) : List Str :=
  match (splitColon kv.1)[2]? with
  | none => s
  | some flowId =>
      if flowId = [] ∨ flowId = undefinedStr then s else jsSetAdd s flowId

/-- calculateRealFlowMetrics (metrics-collector.js lines 169-188):
totalFlows is the size of the uniqueFlows set and activeFlows is defined
to be totalFlows (all flows with messages are considered active). -/
def calculateRealFlowMetrics (c : Collector) : FlowMetrics :=
  let uniqueFlows := c.messageCounters.foldl flowSetStep []
  let totalFlows := uniqueFlows.length
  let activeFlows := totalFlows
  { totalFlows := totalFlows, activeFlows := activeFlows, flowIds := uniqueFlows }

/-- Return value of calculateRealNodeMetrics. -/
structure NodeMetrics where
  nodeTypes : List (Str × Nat)
  activeNodeTypes : List (Str × Nat)
  totalNodes : Nat
deriving DecidableEq

/-- Loop body of calculateRealNodeMetrics (metrics-collector.js lines
200-210), accumulating (nodeTypes, activeNodeTypes, uniqueNodes): when the
second split component is present, truthy and not the literal undefined,
the nodeId is added to the uniqueNodes set and both per-type tallies are
incremented once per map key. -/
def nodeMetricsStep (acc : List (Str × Nat) × List (Str × Nat) × List Str)
    (kv : Str × Nat) : List (Str × Nat) × List (Str × Nat) × List Str :=
  let nodeId := ((splitColon kv.1)[0]?).getD undefinedStr
  match (splitColon kv.1)[1]? with
  | none => acc
  | some nodeTy =>
      if nodeTy = [] ∨ nodeTy = undefinedStr then acc
      else
        (promCounterInc acc.1 nodeTy, promCounterInc acc.2.1 nodeTy,
          jsSetAdd acc.2.2 nodeId)

/-- calculateRealNodeMetrics (metrics-collector.js lines 194-217). -/
def calculateRealNodeMetrics (c : Collector) : NodeMetrics :=
  let r := c.messageCounters.foldl nodeMetricsStep ([], [], [])
  { nodeTypes := r.1, activeNodeTypes := r.2.1, totalNodes := r.2.2.length }

/-- Body of the forEach of metrics-collector.js lines 234-237: set both
per-type node gauges for one type key of the nodeTypes object. -/
def nodeGaugeStep (nm : NodeMetrics) (acc : Collector) (ty : Str) : Collector :=
  { acc with
    nodesTotal :=
      jsMapSet acc.nodesTotal ty (((jsMapGet nm.nodeTypes ty).getD 0 : Nat) : ℚ)
    nodesActive :=
      jsMapSet acc.nodesActive ty
        (((jsMapGet nm.activeNodeTypes ty).getD 0 : Nat) : ℚ) }

/-- updateMetricsFromRealData (metrics-collector.js lines 222-244): write
the flow gauges when totalFlows is positive, then for every key of the
nodeTypes object write both per-type node gauges. -/
def updateMetricsFromRealData (c : Collector) : Collector :=
  let flowMetrics := calculateRealFlowMetrics c
  let c1 :=
    if 0 < flowMetrics.totalFlows then
      { c with
        flowsTotal := (flowMetrics.totalFlows : ℚ)
        flowsActive := (flowMetrics.activeFlows : ℚ) }
    else c
  let nodeMetrics := calculateRealNodeMetrics c1
  if 0 < nodeMetrics.totalNodes then
    (nodeMetrics.nodeTypes.map Prod.fst).foldl (nodeGaugeStep nodeMetrics) c1
  else c1

/-- Reading of the messageCounters map as a total function (a missing key
counts as zero, as in the source expression get(key) or-else 0). -/
def counterValue (c : Collector) (k : Str) : Nat :=
  (jsMapGet c.messageCounters k).getD 0

/-- Reading of the lastMessageCounts map as a total function. -/
def lastValue (c : Collector) (k : Str) : Nat :=
  (jsMapGet c.lastMessageCounts k).getD 0

/-- Value of the messages-per-second gauge at one label triple. -/
def rateValue (c : Collector) (t : Str × Str × Str) : Option ℚ :=
  jsMapGet c.messagesPerSecond t

/-- A finite sequence of recordMessage calls, applied in order. -/
def applyRecordMessages (c : Collector) (calls : List (Str × Str × Str)) :
    Collector :=
  calls.foldl (fun acc t => recordMessage acc t.1 t.2.1 t.2.2) c

/-- One record of the message batch queue of NodeRedHooks (the object
pushed at node-red-hooks.js line 141). -/
structure BatchRecord where
  nodeId : Str
  nodeTy : Str
  flowId : Str
  evType : Str
deriving DecidableEq

/-- State of the NodeRedHooks class (node-red-hooks.js) together with an
explicit model of the single-threaded event loop: pendingTimeouts holds
the ids of setTimeout callbacks that are armed and have neither fired nor
been cleared, pendingIntervals the handles of armed setInterval timers.
batchTimer, updateInterval and cleanupTimer are the fields of the class
(references to the most recently stored handle, possibly stale).
flushCount is a ghost observer counting the processBatch calls that
actually processed a non-empty batch; it changes no behaviour. -/
structure HooksState where
  batchSize : Nat
  maxTimingEntries : Nat
  collector : Collector
  messageStartTimes : List (Str × ℤ)
  messageBatch : List BatchRecord
  batchTimer : Option Nat
  updateInterval : Option Nat
  cleanupTimer : Option Nat
  pendingTimeouts : List Nat
  pendingIntervals : List Nat
  nextTimerId : Nat
  flushCount : Nat
deriving DecidableEq

/-- Arming of a setTimeout(() => this.processBatch(), flushInterval): a
fresh timer id is allocated and recorded as pending; the id is returned so
the caller can store it in the batchTimer field. -/
def armTimeout (s : HooksState) : HooksState × Nat :=
  ({ s with
      pendingTimeouts := s.pendingTimeouts ++ [s.nextTimerId]
      nextTimerId := s.nextTimerId + 1 }, s.nextTimerId)

/-- processBatch (node-red-hooks.js lines 119-135): return if the queue is
empty; otherwise splice the first batchSize records out of the queue, feed
each into recordMessage, and then either arm a fresh flush timeout (when
records remain) or set the batchTimer field to null.  Note the field is
set to null without clearTimeout: a timeout armed earlier stays pending. -/
def processBatch (s : HooksState) : HooksState :=
  if s.messageBatch.length = 0 then s
  else
    let batch := s.messageBatch.take s.batchSize
    let rest := s.messageBatch.drop s.batchSize
    let col := batch.foldl
      (fun col r => recordMessage col r.nodeId r.nodeTy r.flowId) s.collector
    let s1 := { s with
      collector := col
      messageBatch := rest
      flushCount := s.flushCount + 1 }
    if 0 < rest.length then
      let (s2, id) := armTimeout s1
      { s2 with batchTimer := some id }
    else
      { s1 with batchTimer := none }

/-- addToBatch (node-red-hooks.js lines 140-149): push the record; flush
synchronously when the queue has reached batchSize, otherwise arm the
flush timeout if the batchTimer field is null. -/
def addToBatch (s : HooksState) (nodeId nodeTy flowId ty : Str) : HooksState :=
  let s0 := { s with
    messageBatch :=
      s.messageBatch ++ [{ nodeId := nodeId, nodeTy := nodeTy,
                           flowId := flowId, evType := ty }] }
  if s0.batchSize ≤ s0.messageBatch.length then processBatch s0
  else
    match s0.batchTimer with
    | some _ => s0
    | none =>
        let (s1, id) := armTimeout s0
        { s1 with batchTimer := some id }

/-- Event-loop firing of an armed flush timeout: the timeout is consumed
and its callback runs this.processBatch().  Firing an id that is not
pending is a no-op. -/
def fireBatchTimer (s : HooksState) (id : Nat) : HooksState :=
  if id ∈ s.pendingTimeouts then
    processBatch { s with pendingTimeouts := s.pendingTimeouts.erase id }
  else s

/-- The underscore joining nodeId and message id in a timing key. -/
def underscoreChar : Char := '_'

/-- Timing key of node-red-hooks.js lines 214 and 290: the template
literal nodeId underscore messageId. -/
def timingKey (nodeId msgId : Str) : Str :=
  nodeId ++ underscoreChar :: msgId

/-- Literal string send. -/
def sendStr : Str := "send".toList

/-- Literal string complete. -/
def completeStr : Str := "complete".toList

/-- handleSendEvent (node-red-hooks.js lines 193-228) on an event whose
identity fields have already been extracted: record the message directly,
add it to the batch, then store the start timestamp under the timing key.
The exception paths of the source are dead in this pure model. -/
def handleSendEvent (s : HooksState) (nodeId nodeTy flowId msgId : Str)
    (now : ℤ) : HooksState :=
  let s1 := { s with collector := recordMessage s.collector nodeId nodeTy flowId }
  let s2 := addToBatch s1 nodeId nodeTy flowId sendStr
  { s2 with
    messageStartTimes := jsMapSet s2.messageStartTimes (timingKey nodeId msgId) now }

/-- handleCompleteEvent (node-red-hooks.js lines 272-327): add a complete
record to the batch; if a start timestamp is stored under the timing key
and is truthy (a stored 0 is falsy in the source test if startTime), record
the elapsed time divided by 1000 as seconds into the execution-time
histogram and delete the timing entry; finally record an error metric when
the event carries an error (err is its name, already defaulted by the
source to execution when unnamed). -/
def handleCompleteEvent (s : HooksState) (nodeId nodeTy flowId msgId : Str)
    (err : Option Str) (now : ℤ) : HooksState :=
  let s1 := addToBatch s nodeId nodeTy flowId completeStr
  let s2 :=
    match jsMapGet s1.messageStartTimes (timingKey nodeId msgId) with
    | some startTime =>
        if startTime = 0 then s1
        else
          { s1 with
            collector :=
              recordNodeExecution s1.collector nodeId nodeTy flowId
                (((now - startTime : ℤ) : ℚ) / 1000)
            messageStartTimes :=
              jsMapDelete s1.messageStartTimes (timingKey nodeId msgId) }
    | none => s1
  match err with
  | some errName =>
      { s2 with collector := recordError s2.collector nodeId nodeTy flowId errName }
  | none => s2

/-- Maximum age of a timing entry (node-red-hooks.js line 83), in
milliseconds. -/
def maxAgeMs : ℤ := 60000

/-- Array.from(this.messageStartTimes.entries()) sorted ascending by
timestamp, as at node-red-hooks.js line 90 (the sort comparator a[1]-b[1];
Array.prototype.sort is stable, as is mergeSort). -/
def timingSortedEntries (table : List (Str × ℤ)) : List (Str × ℤ) :=
  table.mergeSort (fun a b => decide (a.2 ≤ b.2))

/-- The slice of oldest entries removed by the size pass, node-red-hooks.js
line 91: entries.slice(0, entries.length - maxTimingEntries). -/
def timingToRemove (maxEntries : Nat) (table : List (Str × ℤ)) :
    List (Str × ℤ) :=
  (timingSortedEntries table).take (table.length - maxEntries)

/-- Size pass of cleanupTimingEntries (node-red-hooks.js lines 86-100):
when the table exceeds maxTimingEntries, delete the oldest entries down to
the limit. -/
def timingSizePass (maxEntries : Nat) (table : List (Str × ℤ)) :
    List (Str × ℤ) :=
  if maxEntries < table.length then
    (timingToRemove maxEntries table).foldl (fun acc kv => jsMapDelete acc kv.1)
      table
  else table

/-- cleanupTimingEntries (node-red-hooks.js lines 81-114) as a function of
the options value maxTimingEntries, the current clock and the table: the
size pass followed by the age pass, which deletes every entry strictly
older than maxAgeMs. -/
def cleanupTimingEntries (maxEntries : Nat) (now : ℤ) (table : List (Str × ℤ)) :
    List (Str × ℤ) :=
  (timingSizePass maxEntries table).filter (fun kv => ¬ (maxAgeMs < now - kv.2))

/-- stop (node-red-hooks.js lines 570-608): clear the update interval, the
cleanup interval and the timeout currently referenced by the batchTimer
field (each only when the field is non-null), run one final processBatch,
then discard the timing table and the batch queue. -/
def hooksStop (s : HooksState) : HooksState :=
  let s1 :=
    match s.updateInterval with
    | some id =>
        { s with pendingIntervals := s.pendingIntervals.erase id,
                 updateInterval := none }
    | none => s
  let s2 :=
    match s1.cleanupTimer with
    | some id =>
        { s1 with pendingIntervals := s1.pendingIntervals.erase id,
                  cleanupTimer := none }
    | none => s1
  let s3 :=
    match s2.batchTimer with
    | some id =>
        { s2 with pendingTimeouts := s2.pendingTimeouts.erase id,
                  batchTimer := none }
    | none => s2
  let s4 := processBatch s3
  { s4 with messageStartTimes := [], messageBatch := [] }

/-- State of a freshly constructed NodeRedHooks instance with the given
batchSize and maxTimingEntries options: empty queue and table, no batch
timer, and the cleanup setInterval armed by the constructor (handle 0). -/
def initialHooksState (batchSize maxEntries : Nat) : HooksState :=
  { batchSize := batchSize
    maxTimingEntries := maxEntries
    collector := initCollector
    messageStartTimes := []
    messageBatch := []
    batchTimer := none
    updateInterval := none
    cleanupTimer := some 0
    pendingTimeouts := []
    pendingIntervals := [0]
    nextTimerId := 1
    flushCount := 0 }

/-- Reading a map after a set: the written key returns the new value and
every other key is unchanged. -/
theorem jsMapGet_jsMapSet {α β : Type} [DecidableEq α]
    (m : List (α × β)) (k : α) (v : β) (q : α) :
    jsMapGet (jsMapSet m k v) q = if q = k then some v else jsMapGet m q := by
  induction m with
  | nil =>
      by_cases h : q = k
      · subst h; simp [jsMapSet, jsMapGet]
      · have h2 : ¬ k = q := fun hh => h hh.symm
        simp [jsMapSet, jsMapGet, h, h2]
  | cons kv rest ih =>
      by_cases h1 : kv.1 = k
      · by_cases h : q = k
        · subst h
          simp [jsMapSet, jsMapGet, h1]
        · have h2 : ¬ k = q := fun hh => h hh.symm
          have h3 : ¬ kv.1 = q := h1 ▸ h2
          simp [jsMapSet, jsMapGet, h1, h, h2, h3]
      · by_cases h : q = k
        · subst h
          simp [jsMapSet, jsMapGet, h1, ih]
        · simp [jsMapSet, jsMapGet, h1, h, ih]

/-- Splitting never produces the empty list of parts. -/
theorem splitColon_ne_nil (s : Str) : splitColon s ≠ [] := by
  cases s with
  | nil => simp [splitColon]
  | cons c rest =>
      by_cases h : c = colonChar
      · simp [splitColon, h]
      · cases hs : splitColon rest <;> simp [splitColon, h, hs]

/-- Splitting a string that begins with a colon-free block: the block is
prepended to the first part of the split of the remainder. -/
theorem splitColon_append (a s : Str) (ha : colonChar ∉ a) (p : Str)
    (ps : List Str) (hs : splitColon s = p :: ps) :
    splitColon (a ++ s) = (a ++ p) :: ps := by
  induction a with
  | nil => simpa using hs
  | cons c a ih =>
      have hc : ¬ c = colonChar := by
        intro h; exact ha (by simp [h])
      have ha2 : colonChar ∉ a := fun h => ha (by simp [h])
      have hrec := ih ha2
      show splitColon (c :: (a ++ s)) = (c :: (a ++ p)) :: ps
      rw [splitColon, if_neg hc, hrec]

/-- A colon-free string splits into a single part, itself. -/
theorem splitColon_eq_self (a : Str) (ha : colonChar ∉ a) :
    splitColon a = [a] := by
  have := splitColon_append a [] ha [] [] (by simp [splitColon])
  simpa using this

/-- Splitting the colon-joined key of three colon-free fields yields the
three fields, in order. -/
theorem splitColon_joinKey (a b f : Str) (ha : colonChar ∉ a)
    (hb : colonChar ∉ b) (hf : colonChar ∉ f) :
    splitColon (joinKey a b f) = [a, b, f] := by
  have hff : splitColon f = [f] := splitColon_eq_self f hf
  have hcf : splitColon (colonChar :: f) = [] :: [f] := by
    simp [splitColon, hff]
  have hbf : splitColon (b ++ colonChar :: f) = [b] ++ [f] := by
    have := splitColon_append b (colonChar :: f) hb [] [f] hcf
    simpa using this
  have hcbf : splitColon (colonChar :: (b ++ colonChar :: f)) = [] :: [b, f] := by
    simp only [splitColon, if_pos rfl]
    rw [hbf]; rfl
  have := splitColon_append a (colonChar :: (b ++ colonChar :: f)) ha
    [] [b, f] hcbf
  simpa [joinKey] using this

/-- The triple destructured from a well-formed joined key is the original
field triple. -/
theorem splitTriple_joinKey (a b f : Str) (ha : colonChar ∉ a)
    (hb : colonChar ∉ b) (hf : colonChar ∉ f) :
    splitTriple (joinKey a b f) = (a, b, f) := by
  simp [splitTriple, splitColon_joinKey a b f ha hb hf]

/-- Claim C9: for every triple of strings in which no field contains the
colon delimiter, colon-joining the MetricKey and splitting it again by the
delimiter recovers exactly the original three fields. -/
theorem claimC9_key_roundtrip (a b f : Str) (ha : colonChar ∉ a)
    (hb : colonChar ∉ b) (hf : colonChar ∉ f) :
    splitColon (joinKey a b f) = [a, b, f] :=
  splitColon_joinKey a b f ha hb hf

/-- Witness for claim C9 at the concrete key n1:inject:f1. -/
theorem claimC9_key_roundtrip_witness :
    splitColon (joinKey "n1".toList "inject".toList "f1".toList) =
      ["n1".toList, "inject".toList, "f1".toList] :=
  claimC9_key_roundtrip "n1".toList "inject".toList "f1".toList
    (by decide) (by decide) (by decide)

/-- One recordMessage call increments the counter of its own joined key by
one and leaves every other key unchanged. -/
theorem counterValue_recordMessage (c : Collector) (x y z : Str) (k : Str) :
    counterValue (recordMessage c x y z) k =
      if joinKey x y z = k then counterValue c k + 1 else counterValue c k := by
  by_cases h : joinKey x y z = k
  · subst h
    simp [counterValue, recordMessage, jsMapGet_jsMapSet]
  · have h2 : ¬ k = joinKey x y z := fun hh => h hh.symm
    simp [counterValue, recordMessage, jsMapGet_jsMapSet, h, h2]

/-- A sequence of recordMessage calls adds, at every key, exactly the
number of calls whose joined key matches. -/
theorem counterValue_applyRecordMessages (calls : List (Str × Str × Str))
    (c : Collector) (k : Str) :
    counterValue (applyRecordMessages c calls) k =
      counterValue c k +
        calls.countP (fun t => decide (joinKey t.1 t.2.1 t.2.2 = k)) := by
  induction calls generalizing c with
  | nil => simp [applyRecordMessages]
  | cons t rest ih =>
      have step :
          applyRecordMessages c (t :: rest) =
            applyRecordMessages (recordMessage c t.1 t.2.1 t.2.2) rest := rfl
      rw [step, ih, List.countP_cons, counterValue_recordMessage]
      by_cases h : joinKey t.1 t.2.1 t.2.2 = k
      · simp [h]; omega
      · simp [h]

/-- Claim C2: after any finite sequence of recordMessage calls the per-key
counter equals exactly the number of calls made with that key, it is never
negative, and it never decreases along any prefix of the sequence. -/
theorem claimC2_counter_exact_monotone (calls : List (Str × Str × Str))
    (k : Str) :
    counterValue (applyRecordMessages initCollector calls) k =
        calls.countP (fun t => decide (joinKey t.1 t.2.1 t.2.2 = k)) ∧
      0 ≤ counterValue (applyRecordMessages initCollector calls) k ∧
      ∀ pre suf, calls = pre ++ suf →
        counterValue (applyRecordMessages initCollector pre) k ≤
          counterValue (applyRecordMessages initCollector calls) k := by
  refine ⟨?_, Nat.zero_le _, ?_⟩
  · rw [counterValue_applyRecordMessages]
    simp [counterValue, initCollector, jsMapGet]
  · intro pre suf hsplit
    subst hsplit
    have happ :
        applyRecordMessages initCollector (pre ++ suf) =
          applyRecordMessages (applyRecordMessages initCollector pre) suf := by
      simp [applyRecordMessages, List.foldl_append]
    calc counterValue (applyRecordMessages initCollector pre) k
        ≤ counterValue (applyRecordMessages initCollector pre) k +
            suf.countP (fun t => decide (joinKey t.1 t.2.1 t.2.2 = k)) :=
          Nat.le_add_right _ _
      _ = counterValue
            (applyRecordMessages (applyRecordMessages initCollector pre) suf) k :=
          (counterValue_applyRecordMessages suf _ k).symm
      _ = counterValue (applyRecordMessages initCollector (pre ++ suf)) k := by
          rw [happ]

/-- Counterexample to claim C6: a negative duration passed to
recordNodeExecution is not rejected — it is recorded unchanged into the
execution-time histogram (the claim states it is neither recorded nor
clamped). -/
theorem claimC6_counterexample :
    (-1 : ℚ) < 0 ∧
      (recordNodeExecution initCollector "n1".toList "inject".toList
          "f1".toList (-1)).nodeExecutionTime =
        [(("n1".toList, "inject".toList, "f1".toList), (-1 : ℚ))] :=
  ⟨by norm_num, rfl⟩

/-- Claim C6 as amended: recordNodeExecution performs no validation of its
own — every duration it receives, negative values included, is appended
unchanged to the execution-time histogram, and nothing is rejected or
clamped by this method (rejection of non-finite doubles is performed by
the underlying prom-client library, not by this code; NaN has no
counterpart among the rationals of this model). -/
theorem claimC6_amended_no_validation (c : Collector)
    (nodeId nodeTy flowId : Str) (duration : ℚ) :
    (recordNodeExecution c nodeId nodeTy flowId duration).nodeExecutionTime =
      c.nodeExecutionTime ++ [((nodeId, nodeTy, flowId), duration)] :=
  rfl

/-- One step of the per-type tallies keeps the nodeTypes and
activeNodeTypes components equal. -/
theorem nodeMetricsStep_fst_eq (acc : List (Str × Nat) × List (Str × Nat) × List Str)
    (kv : Str × Nat) (h : acc.1 = acc.2.1) :
    (nodeMetricsStep acc kv).1 = (nodeMetricsStep acc kv).2.1 := by
  unfold nodeMetricsStep
  cases hm : (splitColon kv.1)[1]? with
  | none => simpa using h
  | some ty =>
      by_cases hty : ty = [] ∨ ty = undefinedStr
      · simpa [hty] using h
      · simp [hty, h]

/-- The whole per-type fold keeps the two tallies equal. -/
theorem nodeMetricsFold_fst_eq (l : List (Str × Nat))
    (acc : List (Str × Nat) × List (Str × Nat) × List Str) (h : acc.1 = acc.2.1) :
    (l.foldl nodeMetricsStep acc).1 = (l.foldl nodeMetricsStep acc).2.1 := by
  induction l generalizing acc with
  | nil => simpa using h
  | cons kv rest ih =>
      exact ih (nodeMetricsStep acc kv) (nodeMetricsStep_fst_eq acc kv h)

/-- The derived activeNodeTypes tally always equals the nodeTypes tally. -/
theorem calculateRealNodeMetrics_active_eq (c : Collector) :
    (calculateRealNodeMetrics c).activeNodeTypes =
      (calculateRealNodeMetrics c).nodeTypes := by
  unfold calculateRealNodeMetrics
  exact (nodeMetricsFold_fst_eq c.messageCounters ([], [], []) rfl).symm

/-- The node-gauge fold never touches the flow gauges. -/
theorem nodeGaugeFold_flows (nm : NodeMetrics) (tys : List Str) (acc : Collector) :
    (tys.foldl (nodeGaugeStep nm) acc).flowsActive = acc.flowsActive ∧
      (tys.foldl (nodeGaugeStep nm) acc).flowsTotal = acc.flowsTotal := by
  induction tys generalizing acc with
  | nil => exact ⟨rfl, rfl⟩
  | cons ty rest ih => simpa [nodeGaugeStep] using ih (nodeGaugeStep nm acc ty)

/-- When the two per-type tallies agree, the node-gauge fold keeps the
active-nodes gauge pointwise equal to the total-nodes gauge. -/
theorem nodeGaugeFold_pointwise (nm : NodeMetrics)
    (hnm : nm.activeNodeTypes = nm.nodeTypes) (tys : List Str) (acc : Collector)
    (h : ∀ t, jsMapGet acc.nodesActive t = jsMapGet acc.nodesTotal t) :
    ∀ t, jsMapGet (tys.foldl (nodeGaugeStep nm) acc).nodesActive t =
      jsMapGet (tys.foldl (nodeGaugeStep nm) acc).nodesTotal t := by
  induction tys generalizing acc with
  | nil => simpa using h
  | cons ty rest ih =>
      refine ih (nodeGaugeStep nm acc ty) ?_
      intro t
      simp only [nodeGaugeStep, jsMapGet_jsMapSet, hnm]
      by_cases ht : t = ty
      · simp [ht]
      · simp [ht, h t]

/-- Claim C10: the recomputed inventory metrics never distinguish activity
from existence — activeFlows equals totalFlows, activeNodeTypes equals
nodeTypes, and updateMetricsFromRealData maps a state whose active gauges
equal its total gauges to a state with the same property. -/
theorem claimC10_active_equals_total (c : Collector)
    (hflow : c.flowsActive = c.flowsTotal)
    (hnode : ∀ t, jsMapGet c.nodesActive t = jsMapGet c.nodesTotal t) :
    (calculateRealFlowMetrics c).activeFlows =
        (calculateRealFlowMetrics c).totalFlows ∧
      (calculateRealNodeMetrics c).activeNodeTypes =
        (calculateRealNodeMetrics c).nodeTypes ∧
      (updateMetricsFromRealData c).flowsActive =
        (updateMetricsFromRealData c).flowsTotal ∧
      ∀ t, jsMapGet (updateMetricsFromRealData c).nodesActive t =
        jsMapGet (updateMetricsFromRealData c).nodesTotal t := by
  refine ⟨rfl, calculateRealNodeMetrics_active_eq c, ?_, ?_⟩
  all_goals
    unfold updateMetricsFromRealData
    set fm := calculateRealFlowMetrics c with hfm
    set c1 : Collector :=
      if 0 < fm.totalFlows then
        { c with flowsTotal := (fm.totalFlows : ℚ),
                 flowsActive := (fm.activeFlows : ℚ) }
      else c with hc1
    have hfmflow : fm.activeFlows = fm.totalFlows := by rw [hfm]; rfl
    have hc1flow : c1.flowsActive = c1.flowsTotal := by
      by_cases hpos : 0 < fm.totalFlows
      · simp [hc1, hpos, hfmflow]
      · simpa [hc1, hpos] using hflow
    have hc1node : ∀ t, jsMapGet c1.nodesActive t = jsMapGet c1.nodesTotal t := by
      intro t
      by_cases hpos : 0 < fm.totalFlows
      · simpa [hc1, hpos] using hnode t
      · simpa [hc1, hpos] using hnode t
    have hactive := calculateRealNodeMetrics_active_eq c1
    by_cases hn : 0 < (calculateRealNodeMetrics c1).totalNodes
  · simpa [hn] using
      (nodeGaugeFold_flows (calculateRealNodeMetrics c1)
        ((calculateRealNodeMetrics c1).nodeTypes.map Prod.fst) c1).1.trans
        (hc1flow.trans
          (nodeGaugeFold_flows (calculateRealNodeMetrics c1)
            ((calculateRealNodeMetrics c1).nodeTypes.map Prod.fst) c1).2.symm)
  · simpa [hn] using hc1flow
  · intro t
    simpa [hn] using
      nodeGaugeFold_pointwise (calculateRealNodeMetrics c1) hactive
        ((calculateRealNodeMetrics c1).nodeTypes.map Prod.fst) c1 hc1node t
  · intro t
    simpa [hn] using hc1node t

/-- Witness for claim C10 at the freshly constructed collector. -/
theorem claimC10_witness :
    (calculateRealFlowMetrics initCollector).activeFlows =
        (calculateRealFlowMetrics initCollector).totalFlows ∧
      (calculateRealNodeMetrics initCollector).activeNodeTypes =
        (calculateRealNodeMetrics initCollector).nodeTypes ∧
      (updateMetricsFromRealData initCollector).flowsActive =
        (updateMetricsFromRealData initCollector).flowsTotal ∧
      ∀ t, jsMapGet (updateMetricsFromRealData initCollector).nodesActive t =
        jsMapGet (updateMetricsFromRealData initCollector).nodesTotal t :=
  claimC10_active_equals_total initCollector rfl (fun _ => rfl)

/-- Entries of messageCounters whose label triple (and therefore whose
key) is not touched by the remaining iterations keep their gauge and
sample values across the rate fold. -/
theorem mpsFold_preserve (tl : List (Str × Nat)) (acc : Collector) :
    (∀ tr, tr ∉ tl.map (fun kv => splitTriple kv.1) →
        rateValue (tl.foldl mpsStep acc) tr = rateValue acc tr) ∧
      (∀ k, k ∉ tl.map Prod.fst →
        lastValue (tl.foldl mpsStep acc) k = lastValue acc k) := by
  induction tl generalizing acc with
  | nil => exact ⟨fun tr _ => rfl, fun k _ => rfl⟩
  | cons hd tl ih =>
      constructor
      · intro tr htr
        have h1 : tr ∉ tl.map (fun kv => splitTriple kv.1) := by
          intro hmem; exact htr (by simp [hmem])
        have h2 : ¬ tr = splitTriple hd.1 := by
          intro hh; exact htr (by simp [hh])
        have := (ih (mpsStep acc hd)).1 tr h1
        rw [List.foldl_cons, this]
        simp [mpsStep, rateValue, jsMapGet_jsMapSet, h2]
      · intro k hk
        have h1 : k ∉ tl.map Prod.fst := by
          intro hmem; exact hk (by simp [hmem])
        have h2 : ¬ k = hd.1 := by
          intro hh; exact hk (by simp [hh])
        have := (ih (mpsStep acc hd)).2 k h1
        rw [List.foldl_cons, this]
        simp [mpsStep, lastValue, jsMapGet_jsMapSet, h2]

/-- Rate fold, main property: when the label triples of the iterated
entries are pairwise distinct, every entry ends with its rate gauge set
from its own previous sample and its sample updated to the current
count. -/
theorem mpsFold_correct (tl : List (Str × Nat)) (acc : Collector)
    (hnd : (tl.map (fun kv => splitTriple kv.1)).Nodup) :
    ∀ kv ∈ tl,
      rateValue (tl.foldl mpsStep acc) (splitTriple kv.1) =
          some (((max 0 ((kv.2 : ℤ) - (lastValue acc kv.1 : ℤ)) : ℤ) : ℚ) / 5) ∧
        lastValue (tl.foldl mpsStep acc) kv.1 = kv.2 := by
  induction tl generalizing acc with
  | nil => intro kv h; cases h
  | cons hd tl ih =>
      intro kv hkv
      have hhd : splitTriple hd.1 ∉ tl.map (fun kv => splitTriple kv.1) :=
        (List.nodup_cons.mp (by simpa using hnd)).1
      rcases List.mem_cons.mp hkv with hkv | hkv
      · subst hkv
        have hkey : kv.1 ∉ tl.map Prod.fst := by
          intro hmem
          rcases List.mem_map.mp hmem with ⟨e, he, hek⟩
          exact hhd (List.mem_map.mpr ⟨e, he, by rw [hek]⟩)
        have hpres := mpsFold_preserve tl (mpsStep acc kv)
        rw [List.foldl_cons]
        constructor
        · rw [hpres.1 (splitTriple kv.1) hhd]
          simp [mpsStep, rateValue, lastValue, jsMapGet_jsMapSet]
        · rw [hpres.2 kv.1 hkey]
          simp [mpsStep, lastValue, jsMapGet_jsMapSet]
      · have hne : ¬ kv.1 = hd.1 := by
          intro hh
          exact hhd (List.mem_map.mpr ⟨kv, hkv, by rw [hh]⟩)
        have hlast : lastValue (mpsStep acc hd) kv.1 = lastValue acc kv.1 := by
          simp [mpsStep, lastValue, jsMapGet_jsMapSet, hne]
        have := ih (mpsStep acc hd) (List.nodup_cons.mp (by simpa using hnd)).2
          kv hkv
        rw [List.foldl_cons]
        rw [hlast] at this
        exact this

/-- Claim C5 as amended: on every rate tick and for every key of the
counter map (their label triples assumed pairwise distinct), the written
rate is max(0, currentTotal minus previousSample) divided by the hardcoded
constant 5 — the 5-second tick period that start() also hardcodes, not the
configured collection interval — the stored sample becomes currentTotal,
and a counter that appears to decrease yields rate 0. -/
theorem claimC5_amended_rate_tick (c : Collector)
    (hnd : (c.messageCounters.map (fun kv => splitTriple kv.1)).Nodup) :
    ∀ kv ∈ c.messageCounters,
      rateValue (calculateMessagesPerSecond c) (splitTriple kv.1) =
          some (((max 0 ((kv.2 : ℤ) - (lastValue c kv.1 : ℤ)) : ℤ) : ℚ) / 5) ∧
        lastValue (calculateMessagesPerSecond c) kv.1 = kv.2 ∧
        ((kv.2 : ℤ) ≤ (lastValue c kv.1 : ℤ) →
          rateValue (calculateMessagesPerSecond c) (splitTriple kv.1) = some 0) := by
  intro kv hkv
  have h := mpsFold_correct c.messageCounters c hnd kv hkv
  refine ⟨h.1, h.2, fun hle => ?_⟩
  have hmax : max 0 ((kv.2 : ℤ) - (lastValue c kv.1 : ℤ)) = 0 := by omega
  show rateValue (c.messageCounters.foldl mpsStep c) (splitTriple kv.1) = some 0
  rw [h.1, hmax]
  norm_num

/-- The collector of the claim C5 scenario: configured collection interval
10000 ms, one key with current total 80 and previous sample 50. -/
def c5state : Collector :=
  { initCollector with
    collectIntervalOpt := 10000
    messageCounters := [(joinKey "n1".toList "inject".toList "f1".toList, 80)]
    lastMessageCounts := [(joinKey "n1".toList "inject".toList "f1".toList, 50)] }

/-- Counterexample to claim C5: with the collection interval configured to
10000 ms the claim predicts rate (80-50)/10 = 3, but the tick divides by
the hardcoded 5 and writes 6. -/
theorem claimC5_counterexample :
    c5state.collectIntervalOpt = 10000 ∧
      rateValue (calculateMessagesPerSecond c5state)
        ("n1".toList, "inject".toList, "f1".toList) = some 6 ∧
      ((6 : ℚ) ≠
        ((max 0 ((80 : ℤ) - 50) : ℤ) : ℚ) /
          ((c5state.collectIntervalOpt : ℚ) / 1000)) := by
  have hsplit :
      splitTriple (joinKey "n1".toList "inject".toList "f1".toList) =
        ("n1".toList, "inject".toList, "f1".toList) :=
    splitTriple_joinKey "n1".toList "inject".toList "f1".toList
      (by decide) (by decide) (by decide)
  refine ⟨rfl, ?_, ?_⟩
  · have h := mpsFold_correct c5state.messageCounters c5state (by simp [c5state])
      (joinKey "n1".toList "inject".toList "f1".toList, 80) (by simp [c5state])
    have h1 := h.1
    rw [hsplit] at h1
    show rateValue (c5state.messageCounters.foldl mpsStep c5state)
      ("n1".toList, "inject".toList, "f1".toList) = some 6
    rw [h1]
    norm_num [lastValue, c5state, jsMapGet]
  · have hopt : c5state.collectIntervalOpt = 10000 := rfl
    rw [hopt]
    norm_num

/-- Witness for the amended claim C5 at the scenario state: rate 6 is
written (previous sample 50, current total 80, divisor 5) and the sample
becomes 80. -/
theorem claimC5_witness :
    rateValue (calculateMessagesPerSecond c5state)
        (splitTriple (joinKey "n1".toList "inject".toList "f1".toList)) =
        some (((max 0 ((80 : ℤ) -
          (lastValue c5state
            (joinKey "n1".toList "inject".toList "f1".toList) : ℤ)) : ℤ) : ℚ) / 5) ∧
      lastValue (calculateMessagesPerSecond c5state)
        (joinKey "n1".toList "inject".toList "f1".toList) = 80 := by
  have h := claimC5_amended_rate_tick c5state (by simp [c5state])
    (joinKey "n1".toList "inject".toList "f1".toList, 80) (by simp [c5state])
  exact ⟨h.1, h.2.1⟩

/-- Folding map deletions over a list of entries filters out exactly the
entries whose key occurs among the deleted keys. -/
theorem foldl_jsMapDelete (rs : List (Str × ℤ)) (m : List (Str × ℤ)) :
    rs.foldl (fun acc kv => jsMapDelete acc kv.1) m =
      m.filter (fun kv => decide (kv.1 ∉ rs.map Prod.fst)) := by
  induction rs generalizing m with
  | nil => simp
  | cons r rs ih =>
      rw [List.foldl_cons, ih]
      show (jsMapDelete m r.1).filter _ = _
      unfold jsMapDelete
      rw [List.filter_filter]
      refine List.filter_congr ?_
      intro kv _
      by_cases h1 : kv.1 = r.1 <;> by_cases h2 : kv.1 ∈ List.map Prod.fst rs <;>
        simp [h1, h2]

/-- Filtering a nodup list of present keys out of a nodup-keyed table
removes exactly one entry per key. -/
theorem length_filter_keys_not_mem (m : List (Str × ℤ)) (ks : List Str)
    (hm : (m.map Prod.fst).Nodup) (hks : ks.Nodup)
    (hsub : ∀ k ∈ ks, k ∈ m.map Prod.fst) :
    (m.filter (fun kv => decide (kv.1 ∉ ks))).length = m.length - ks.length := by
  induction m generalizing ks with
  | nil =>
      have : ks = [] := List.eq_nil_iff_forall_not_mem.mpr (fun k hk => by
        simpa using hsub k hk)
      simp [this]
  | cons a m ih =>
      have hhead : a.1 ∉ m.map Prod.fst := (List.nodup_cons.mp (by simpa using hm)).1
      have hmtl : (m.map Prod.fst).Nodup := (List.nodup_cons.mp (by simpa using hm)).2
      by_cases hak : a.1 ∈ ks
      · have hklen : 1 ≤ ks.length := by
          cases ks with
          | nil => simp at hak
          | cons x xs => simp
        have hcongr :
            m.filter (fun kv => decide (kv.1 ∉ ks)) =
              m.filter (fun kv => decide (kv.1 ∉ ks.erase a.1)) := by
          refine List.filter_congr ?_
          intro kv hkv
          have hne : kv.1 ≠ a.1 := by
            intro hh
            exact hhead (hh ▸ List.mem_map.mpr ⟨kv, hkv, rfl⟩)
          simp [hks.mem_erase_iff, hne]
        have hsub2 : ∀ k ∈ ks.erase a.1, k ∈ m.map Prod.fst := by
          intro k hk
          have hk2 := (hks.mem_erase_iff).mp hk
          have := hsub k hk2.2
          simp only [List.map_cons, List.mem_cons] at this
          rcases this with h | h
          · exact absurd h hk2.1
          · exact h
        have hlen2 :
            (ks.erase a.1).length ≤ m.length :=
          ((List.subperm_of_subset ((hks.erase a.1)) hsub2).length_le).trans
            (by rw [List.length_map])
        have hke : (ks.erase a.1).length = ks.length - 1 :=
          List.length_erase_of_mem hak
        rw [List.filter_cons]
        simp only [hak, decide_eq_true_eq, not_true_eq_false, decide_False]
        rw [if_neg (by simp [hak])]
        rw [hcongr, ih (ks.erase a.1) hmtl (hks.erase a.1) hsub2, hke]
        simp only [List.length_cons]
        omega
      · have hsub2 : ∀ k ∈ ks, k ∈ m.map Prod.fst := by
          intro k hk
          have := hsub k hk
          simp only [List.map_cons, List.mem_cons] at this
          rcases this with h | h
          · exact absurd (h ▸ hk) hak
          · exact h
        have hlen2 : ks.length ≤ m.length :=
          ((List.subperm_of_subset hks hsub2).length_le).trans
            (by rw [List.length_map])
        rw [List.filter_cons]
        rw [if_pos (by simp [hak])]
        simp only [List.length_cons]
        rw [ih ks hmtl hks hsub2]
        omega

/-- The sorted copy of the table is a permutation of it. -/
theorem timingSortedEntries_perm (table : List (Str × ℤ)) :
    (timingSortedEntries table).Perm table :=
  List.mergeSort_perm table _

/-- The sorted copy is pairwise ascending in its timestamps. -/
theorem timingSortedEntries_pairwise (table : List (Str × ℤ)) :
    List.Pairwise (fun a b : Str × ℤ => a.2 ≤ b.2) (timingSortedEntries table) := by
  have h := @List.sorted_mergeSort (Str × ℤ)
    (fun a b : Str × ℤ => decide (a.2 ≤ b.2))
    (fun a b c hab hbc => by
      simp only [decide_eq_true_eq] at hab hbc ⊢
      omega)
    (fun a b => by
      rcases le_total a.2 b.2 with h | h <;> simp [h])
    table
  exact h.imp (by intro a b hh; simpa using hh)

/-- Keys of the to-remove slice are pairwise distinct when the table keys
are. -/
theorem timingToRemove_keys_nodup (maxE : Nat) (table : List (Str × ℤ))
    (hm : (table.map Prod.fst).Nodup) :
    ((timingToRemove maxE table).map Prod.fst).Nodup := by
  have hperm : ((timingSortedEntries table).map Prod.fst).Perm
      (table.map Prod.fst) := (timingSortedEntries_perm table).map _
  have hnod : ((timingSortedEntries table).map Prod.fst).Nodup :=
    hperm.nodup_iff.mpr hm
  exact ((List.take_sublist _ _).map Prod.fst).nodup hnod

/-- Every key of the to-remove slice is a key of the table. -/
theorem timingToRemove_keys_sub (maxE : Nat) (table : List (Str × ℤ)) :
    ∀ k ∈ (timingToRemove maxE table).map Prod.fst, k ∈ table.map Prod.fst := by
  intro k hk
  rcases List.mem_map.mp hk with ⟨kv, hkv, rfl⟩
  have hmem : kv ∈ timingSortedEntries table :=
    (List.take_sublist _ _).subset hkv
  exact List.mem_map.mpr
    ⟨kv, ((timingSortedEntries_perm table).mem_iff).mp hmem, rfl⟩

/-- Size of the to-remove slice when the table is over the limit. -/
theorem timingToRemove_length (maxE : Nat) (table : List (Str × ℤ)) :
    (timingToRemove maxE table).length = table.length - maxE := by
  unfold timingToRemove
  rw [List.length_take, (timingSortedEntries_perm table).length_eq]
  exact min_eq_left (Nat.sub_le _ _)

/-- Over the limit, the size pass filters out exactly the entries whose
key is in the to-remove slice. -/
theorem timingSizePass_eq_filter (maxE : Nat) (table : List (Str × ℤ))
    (h : maxE < table.length) :
    timingSizePass maxE table =
      table.filter
        (fun kv => decide (kv.1 ∉ (timingToRemove maxE table).map Prod.fst)) := by
  unfold timingSizePass
  rw [if_pos h]
  exact foldl_jsMapDelete _ _

/-- After the size pass the table is at the limit (when it was over it)
and never above it. -/
theorem timingSizePass_length (maxE : Nat) (table : List (Str × ℤ))
    (hm : (table.map Prod.fst).Nodup) :
    (timingSizePass maxE table).length ≤ maxE ∧
      (maxE < table.length → (timingSizePass maxE table).length = maxE) := by
  by_cases h : maxE < table.length
  · have heq := timingSizePass_eq_filter maxE table h
    have hlen := length_filter_keys_not_mem table
      ((timingToRemove maxE table).map Prod.fst) hm
      (timingToRemove_keys_nodup maxE table hm)
      (timingToRemove_keys_sub maxE table)
    rw [List.length_map, timingToRemove_length maxE table] at hlen
    rw [heq, hlen]
    constructor
    · omega
    · intro _; omega
  · constructor
    · unfold timingSizePass
      rw [if_neg h]
      omega
    · intro hh; exact absurd hh h

/-- The size pass only removes entries. -/
theorem timingSizePass_subset (maxE : Nat) (table : List (Str × ℤ)) :
    ∀ kv ∈ timingSizePass maxE table, kv ∈ table := by
  intro kv hkv
  unfold timingSizePass at hkv
  by_cases h : maxE < table.length
  · rw [if_pos h, foldl_jsMapDelete] at hkv
    exact (List.mem_filter.mp hkv).1
  · rwa [if_neg h] at hkv

/-- Claim C4: for every timing table with pairwise-distinct keys, one
sweep leaves at most maxTimingEntries entries, every surviving entry at
age at most the 60-second threshold, and only entries of the original
table; and in the scenario of 1500 entries, all young, with the limit
1000, exactly 1000 entries remain, 500 were removed, and every removed
entry has a start timestamp no later than that of any surviving entry
(the removed 500 are the oldest). -/
theorem claimC4_sweep_bounds (maxE : Nat) (now : ℤ) (table : List (Str × ℤ))
    (hm : (table.map Prod.fst).Nodup) :
    ((cleanupTimingEntries maxE now table).length ≤ maxE ∧
      (∀ kv ∈ cleanupTimingEntries maxE now table, now - kv.2 ≤ maxAgeMs) ∧
      (∀ kv ∈ cleanupTimingEntries maxE now table, kv ∈ table)) ∧
    (table.length = 1500 → maxE = 1000 →
      (∀ kv ∈ table, now - kv.2 ≤ maxAgeMs) →
      (cleanupTimingEntries maxE now table).length = 1000 ∧
        table.length - (cleanupTimingEntries maxE now table).length = 500 ∧
        ∀ a ∈ table, a ∉ cleanupTimingEntries maxE now table →
          ∀ b ∈ cleanupTimingEntries maxE now table, a.2 ≤ b.2) := by
  constructor
  · refine ⟨?_, ?_, ?_⟩
    · exact (List.length_filter_le _ _).trans
        (timingSizePass_length maxE table hm).1
    · intro kv hkv
      have := (List.mem_filter.mp hkv).2
      simp only [decide_eq_true_eq] at this
      omega
    · intro kv hkv
      exact timingSizePass_subset maxE table kv (List.mem_filter.mp hkv).1
  · intro hlen hmaxE hage
    subst hmaxE
    have hover : (1000 : Nat) < table.length := by omega
    have hclean : cleanupTimingEntries 1000 now table =
        timingSizePass 1000 table := by
      unfold cleanupTimingEntries
      refine List.filter_eq_self.mpr ?_
      intro kv hkv
      have := hage kv (timingSizePass_subset 1000 table kv hkv)
      simp only [decide_eq_true_eq]
      omega
    have hlen2 : (cleanupTimingEntries 1000 now table).length = 1000 := by
      rw [hclean]
      exact (timingSizePass_length 1000 table hm).2 hover
    refine ⟨hlen2, by omega, ?_⟩
    intro a ha hnota b hb
    rw [hclean, timingSizePass_eq_filter 1000 table hover] at hnota hb
    have hsortnod : ((timingSortedEntries table).map Prod.fst).Nodup :=
      (((timingSortedEntries_perm table).map Prod.fst).nodup_iff).mpr hm
    have hamem : a ∈ timingSortedEntries table :=
      ((timingSortedEntries_perm table).mem_iff).mpr ha
    have haks : a.1 ∈ (timingToRemove 1000 table).map Prod.fst := by
      by_contra hno
      exact hnota (List.mem_filter.mpr ⟨ha, by simpa using hno⟩)
    have hatake : a ∈ timingToRemove 1000 table := by
      rcases List.mem_map.mp haks with ⟨x, hx, hxk⟩
      have hxs : x ∈ timingSortedEntries table :=
        (List.take_sublist _ _).subset hx
      have := List.inj_on_of_nodup_map hsortnod hxs hamem hxk
      exact this ▸ hx
    have hbtable : b ∈ table := (List.mem_filter.mp hb).1
    have hbnotks : b.1 ∉ (timingToRemove 1000 table).map Prod.fst := by
      have := (List.mem_filter.mp hb).2
      simpa using this
    have hbmem : b ∈ timingSortedEntries table :=
      ((timingSortedEntries_perm table).mem_iff).mpr hbtable
    have hbdrop : b ∈ (timingSortedEntries table).drop (table.length - 1000) := by
      have hsplit := List.take_append_drop (table.length - 1000)
        (timingSortedEntries table)
      have : b ∈ (timingSortedEntries table).take (table.length - 1000) ++
          (timingSortedEntries table).drop (table.length - 1000) := by
        rw [hsplit]; exact hbmem
      rcases List.mem_append.mp this with h | h
      · exact absurd (List.mem_map.mpr ⟨b, h, rfl⟩) hbnotks
      · exact h
    have hpair := timingSortedEntries_pairwise table
    rw [← List.take_append_drop (table.length - 1000)
      (timingSortedEntries table)] at hpair
    have hacross := (List.pairwise_append.mp hpair).2.2
    exact hacross a hatake b hbdrop

/-- Witness for claim C4 at a concrete three-entry table with limit two:
the sweep keeps the table within the limit and within the age bound. -/
theorem claimC4_witness :
    ((cleanupTimingEntries 2 100000
        [("a1".toList, (90000 : ℤ)), ("a2".toList, 95000), ("a3".toList, 10000)]).length ≤ 2 ∧
      (∀ kv ∈ cleanupTimingEntries 2 100000
          [("a1".toList, (90000 : ℤ)), ("a2".toList, 95000), ("a3".toList, 10000)],
        (100000 : ℤ) - kv.2 ≤ maxAgeMs) ∧
      (∀ kv ∈ cleanupTimingEntries 2 100000
          [("a1".toList, (90000 : ℤ)), ("a2".toList, 95000), ("a3".toList, 10000)],
        kv ∈ [("a1".toList, (90000 : ℤ)), ("a2".toList, 95000), ("a3".toList, 10000)])) ∧
    ([("a1".toList, (90000 : ℤ)), ("a2".toList, 95000), ("a3".toList, 10000)].length = 1500 →
      (2 : Nat) = 1000 →
      (∀ kv ∈ [("a1".toList, (90000 : ℤ)), ("a2".toList, 95000), ("a3".toList, 10000)],
        (100000 : ℤ) - kv.2 ≤ maxAgeMs) →
      (cleanupTimingEntries 2 100000
          [("a1".toList, (90000 : ℤ)), ("a2".toList, 95000), ("a3".toList, 10000)]).length = 1000 ∧
        [("a1".toList, (90000 : ℤ)), ("a2".toList, 95000), ("a3".toList, 10000)].length -
          (cleanupTimingEntries 2 100000
            [("a1".toList, (90000 : ℤ)), ("a2".toList, 95000), ("a3".toList, 10000)]).length = 500 ∧
        ∀ a ∈ [("a1".toList, (90000 : ℤ)), ("a2".toList, 95000), ("a3".toList, 10000)],
          a ∉ cleanupTimingEntries 2 100000
            [("a1".toList, (90000 : ℤ)), ("a2".toList, 95000), ("a3".toList, 10000)] →
          ∀ b ∈ cleanupTimingEntries 2 100000
            [("a1".toList, (90000 : ℤ)), ("a2".toList, 95000), ("a3".toList, 10000)],
          a.2 ≤ b.2) :=
  claimC4_sweep_bounds 2 100000
    [("a1".toList, (90000 : ℤ)), ("a2".toList, 95000), ("a3".toList, 10000)]
    (by decide)

/-- Claim C3, evaluated at its failing input (code bug): with batchSize 2,
enqueuing two records triggers exactly one synchronous flush (flushCount 1)
and nulls the batchTimer field, yet the timeout armed at the first enqueue
is still pending, because processBatch nulls the field without
clearTimeout; a third enqueue then sees a null field and arms a second
timeout while the first is still pending — two flush timers armed at once,
which the claim forbids. -/
theorem claimC3_orphan_timer_eval :
    ((addToBatch
        (addToBatch (initialHooksState 2 1000) "n1".toList "t".toList
          "f".toList "send".toList)
        "n2".toList "t".toList "f".toList "send".toList).flushCount = 1 ∧
      (addToBatch
        (addToBatch (initialHooksState 2 1000) "n1".toList "t".toList
          "f".toList "send".toList)
        "n2".toList "t".toList "f".toList "send".toList).batchTimer = none ∧
      (addToBatch
        (addToBatch (initialHooksState 2 1000) "n1".toList "t".toList
          "f".toList "send".toList)
        "n2".toList "t".toList "f".toList "send".toList).pendingTimeouts = [1]) ∧
    (addToBatch
      (addToBatch
        (addToBatch (initialHooksState 2 1000) "n1".toList "t".toList
          "f".toList "send".toList)
        "n2".toList "t".toList "f".toList "send".toList)
      "n3".toList "t".toList "f".toList "send".toList).pendingTimeouts =
        [1, 2] := by
  decide

/-- Claim C7, evaluated at its failing input (code bug): after the same
two enqueues (synchronous flush, orphaned timeout 1) a stop clears both
setInterval handles and finds the batchTimer field already null, performs
the final flush of the (empty) queue and discards the tables — but the
orphaned flush timeout is still armed after stop and will fire again,
which the claim forbids.  The final-flush obligations hold: every enqueued
record was flushed (flushCount 1) and the queue is empty. -/
theorem claimC7_stop_orphan_timer_eval :
    (hooksStop
        (addToBatch
          (addToBatch (initialHooksState 2 1000) "n1".toList "t".toList
            "f".toList "send".toList)
          "n2".toList "t".toList "f".toList "send".toList)).pendingIntervals =
        [] ∧
      (hooksStop
        (addToBatch
          (addToBatch (initialHooksState 2 1000) "n1".toList "t".toList
            "f".toList "send".toList)
          "n2".toList "t".toList "f".toList "send".toList)).updateInterval =
        none ∧
      (hooksStop
        (addToBatch
          (addToBatch (initialHooksState 2 1000) "n1".toList "t".toList
            "f".toList "send".toList)
          "n2".toList "t".toList "f".toList "send".toList)).cleanupTimer =
        none ∧
      (hooksStop
        (addToBatch
          (addToBatch (initialHooksState 2 1000) "n1".toList "t".toList
            "f".toList "send".toList)
          "n2".toList "t".toList "f".toList "send".toList)).batchTimer =
        none ∧
      (hooksStop
        (addToBatch
          (addToBatch (initialHooksState 2 1000) "n1".toList "t".toList
            "f".toList "send".toList)
          "n2".toList "t".toList "f".toList "send".toList)).messageBatch =
        [] ∧
      (hooksStop
        (addToBatch
          (addToBatch (initialHooksState 2 1000) "n1".toList "t".toList
            "f".toList "send".toList)
          "n2".toList "t".toList "f".toList "send".toList)).flushCount = 1 ∧
      (hooksStop
        (addToBatch
          (addToBatch (initialHooksState 2 1000) "n1".toList "t".toList
            "f".toList "send".toList)
          "n2".toList "t".toList "f".toList "send".toList)).pendingTimeouts =
        [1] := by
  decide

/-- Claim C1, evaluated at its input (code bug): on a fresh engine with
the default options, a send event for n1/inject/f1/m1 at clock 1000,
the flush of the pending batch, and a complete event for the same
identifiers at clock 1120 (120 ms later) leave the message counter of
key n1:inject:f1 at 2 — not 1 as claimed, because handleSendEvent both
records the message directly and enqueues it for the batch flush, which
records it again (and the complete event has enqueued a third record,
still pending) — while the execution-time histogram for n1/inject/f1
holds exactly one observation of (1120-1000)/1000 = 0.12 seconds, as
claimed. -/
theorem claimC1_send_complete_eval :
    jsMapGet
        (handleCompleteEvent
          (fireBatchTimer
            (handleSendEvent (initialHooksState 100 1000) "n1".toList
              "inject".toList "f1".toList "m1".toList 1000)
            1)
          "n1".toList "inject".toList "f1".toList "m1".toList none
          1120).collector.messageCounters
        (joinKey "n1".toList "inject".toList "f1".toList) = some 2 ∧
      (handleCompleteEvent
          (fireBatchTimer
            (handleSendEvent (initialHooksState 100 1000) "n1".toList
              "inject".toList "f1".toList "m1".toList 1000)
            1)
          "n1".toList "inject".toList "f1".toList "m1".toList none
          1120).collector.nodeExecutionTime.map Prod.fst =
        [("n1".toList, "inject".toList, "f1".toList)] ∧
      (handleCompleteEvent
          (fireBatchTimer
            (handleSendEvent (initialHooksState 100 1000) "n1".toList
              "inject".toList "f1".toList "m1".toList 1000)
            1)
          "n1".toList "inject".toList "f1".toList "m1".toList none
          1120).collector.nodeExecutionTime.map Prod.snd =
        [(((1120 : ℤ) - (1000 : ℤ) : ℤ) : ℚ) / 1000] ∧
      (((1120 : ℤ) - (1000 : ℤ) : ℤ) : ℚ) / 1000 = 3 / 25 := by
  refine ⟨by decide, by decide, ?_, by norm_num⟩
  rfl

/-- The nodeId component of a stored key, as the source destructures it. -/
def keyNodeId (k : Str) : Str := (splitTriple k).1

/-- The nodeType component of a stored key, as the source destructures it. -/
def keyNodeTy (k : Str) : Str := (splitTriple k).2.1

/-- The flowId component of a stored key, as the source destructures it. -/
def keyFlowId (k : Str) : Str := (splitTriple k).2.2

/-- Specification-side count, following the words of the spec: the number
of distinct flowIds observed across all counter-map keys. -/
def specDistinctFlowIds (c : Collector) : Nat :=
  ((c.messageCounters.map (fun kv => keyFlowId kv.1)).toFinset).card

/-- Specification-side count, following the words of the spec: the number
of distinct nodeIds observed across all counter-map keys. -/
def specDistinctNodeIds (c : Collector) : Nat :=
  ((c.messageCounters.map (fun kv => keyNodeId kv.1)).toFinset).card

/-- Specification-side count, following the words of the spec: the number
of distinct nodeIds observed with a given nodeType. -/
def specDistinctNodeIdsOfType (c : Collector) (ty : Str) : Nat :=
  (((c.messageCounters.filter (fun kv => decide (keyNodeTy kv.1 = ty))).map
      (fun kv => keyNodeId kv.1)).toFinset).card

/-- Count of counter-map keys carrying a given nodeType (what the code
actually tallies per type). -/
def specKeysOfType (c : Collector) (ty : Str) : Nat :=
  c.messageCounters.countP (fun kv => decide (keyNodeTy kv.1 = ty))

/-- A key as produced by recordMessage from well-formed fields: the three
fields are colon-free and nodeType and flowId are truthy and not the
literal undefined. -/
def GoodKey (k : Str) : Prop :=
  ∃ a b f, colonChar ∉ a ∧ colonChar ∉ b ∧ colonChar ∉ f ∧
    b ≠ [] ∧ b ≠ undefinedStr ∧ f ≠ [] ∧ f ≠ undefinedStr ∧ k = joinKey a b f

/-- Counterexample to claim C8: after recordMessage for (n1, inject, f1)
and (n1, inject, f2) the per-type tally of inject is 2 — it counts one per
counter-map key — while only one distinct nodeId was observed with type
inject, so the per-type node count does not equal the number of distinct
nodeIds of that type. -/
theorem claimC8_counterexample :
    jsMapGet
        (calculateRealNodeMetrics
          (recordMessage
            (recordMessage initCollector "n1".toList "inject".toList
              "f1".toList)
            "n1".toList "inject".toList "f2".toList)).nodeTypes
        "inject".toList = some 2 ∧
      specDistinctNodeIdsOfType
        (recordMessage
          (recordMessage initCollector "n1".toList "inject".toList
            "f1".toList)
          "n1".toList "inject".toList "f2".toList) "inject".toList = 1 ∧
      (2 : Nat) ≠ 1 := by
  refine ⟨by decide, by decide, by decide⟩

/-- Membership in a JavaScript Set after an add. -/
theorem jsSetAdd_mem {α : Type} [DecidableEq α] (s : List α) (a x : α) :
    x ∈ jsSetAdd s a ↔ x ∈ s ∨ x = a := by
  unfold jsSetAdd
  by_cases h : a ∈ s
  · simp only [if_pos h]
    constructor
    · exact fun hx => Or.inl hx
    · rintro (hx | rfl)
      · exact hx
      · exact h
  · simp [if_neg h]

/-- A JavaScript Set stays duplicate-free under add. -/
theorem jsSetAdd_nodup {α : Type} [DecidableEq α] (s : List α) (a : α)
    (h : s.Nodup) : (jsSetAdd s a).Nodup := by
  unfold jsSetAdd
  by_cases ha : a ∈ s
  · simpa [if_pos ha] using h
  · rw [if_neg ha]
    refine List.Nodup.append h (List.nodup_singleton a) ?_
    exact List.disjoint_singleton.mpr ha

/-- Membership in a Set built by folding adds. -/
theorem foldl_jsSetAdd_mem {α : Type} [DecidableEq α] (l : List α)
    (acc : List α) (x : α) :
    x ∈ l.foldl jsSetAdd acc ↔ x ∈ acc ∨ x ∈ l := by
  induction l generalizing acc with
  | nil => simp
  | cons a l ih =>
      rw [List.foldl_cons, ih]
      rw [jsSetAdd_mem]
      constructor
      · rintro ((hx | rfl) | hx)
        · exact Or.inl hx
        · exact Or.inr (by simp)
        · exact Or.inr (by simp [hx])
      · rintro (hx | hx)
        · exact Or.inl (Or.inl hx)
        · rcases List.mem_cons.mp hx with rfl | hx
          · exact Or.inl (Or.inr rfl)
          · exact Or.inr hx

/-- A Set built by folding adds is duplicate-free. -/
theorem foldl_jsSetAdd_nodup {α : Type} [DecidableEq α] (l : List α)
    (acc : List α) (h : acc.Nodup) : (l.foldl jsSetAdd acc).Nodup := by
  induction l generalizing acc with
  | nil => simpa using h
  | cons a l ih => exact ih (jsSetAdd acc a) (jsSetAdd_nodup acc a h)

/-- The size of a Set built by folding adds from empty is the number of
distinct elements added. -/
theorem foldl_jsSetAdd_length {α : Type} [DecidableEq α] (l : List α) :
    (l.foldl jsSetAdd []).length = l.toFinset.card := by
  have hnd : (l.foldl jsSetAdd []).Nodup :=
    foldl_jsSetAdd_nodup l [] (by simp)
  have hfs : (l.foldl jsSetAdd []).toFinset = l.toFinset := by
    refine Finset.ext (fun x => ?_)
    rw [List.mem_toFinset, List.mem_toFinset, foldl_jsSetAdd_mem]
    simp
  rw [← List.toFinset_card_of_nodup hnd, hfs]

/-- On a good key the flow step is a plain Set add of the flowId. -/
theorem flowSetStep_good (kv : Str × Nat) (h : GoodKey kv.1) (s : List Str) :
    flowSetStep s kv = jsSetAdd s (keyFlowId kv.1) := by
  obtain ⟨a, b, f, ha, hb, hf, _, _, hf1, hf2, hk⟩ := h
  have hsplit := splitColon_joinKey a b f ha hb hf
  have htriple := splitTriple_joinKey a b f ha hb hf
  rw [flowSetStep, hk, hsplit]
  have hkey : keyFlowId (joinKey a b f) = f := by simp [keyFlowId, htriple]
  simp [hf1, hf2, hkey]

/-- On a good key the node step increments both tallies at the nodeType
and adds the nodeId to the unique-node Set. -/
theorem nodeMetricsStep_good
    (acc : List (Str × Nat) × List (Str × Nat) × List Str) (kv : Str × Nat)
    (h : GoodKey kv.1) :
    nodeMetricsStep acc kv =
      (promCounterInc acc.1 (keyNodeTy kv.1),
        promCounterInc acc.2.1 (keyNodeTy kv.1),
        jsSetAdd acc.2.2 (keyNodeId kv.1)) := by
  obtain ⟨a, b, f, ha, hb, hf, hb1, hb2, _, _, hk⟩ := h
  have hsplit := splitColon_joinKey a b f ha hb hf
  have htriple := splitTriple_joinKey a b f ha hb hf
  have hty : keyNodeTy (joinKey a b f) = b := by simp [keyNodeTy, htriple]
  have hid : keyNodeId (joinKey a b f) = a := by simp [keyNodeId, htriple]
  rw [nodeMetricsStep, hk, hsplit]
  simp [hb1, hb2, hty, hid]

/-- Over good keys the flow fold is the Set-add fold of the flowIds. -/
theorem flowFold_good (l : List (Str × Nat)) (hgood : ∀ kv ∈ l, GoodKey kv.1)
    (s : List Str) :
    l.foldl flowSetStep s =
      (l.map (fun kv => keyFlowId kv.1)).foldl jsSetAdd s := by
  induction l generalizing s with
  | nil => rfl
  | cons kv l ih =>
      rw [List.foldl_cons, List.map_cons, List.foldl_cons,
        flowSetStep_good kv (hgood kv (by simp)) s]
      exact ih (fun x hx => hgood x (by simp [hx])) _

/-- Over good keys the node fold decomposes into the two tally folds and
the Set-add fold of the nodeIds. -/
theorem nodeFold_good (l : List (Str × Nat)) (hgood : ∀ kv ∈ l, GoodKey kv.1)
    (acc : List (Str × Nat) × List (Str × Nat) × List Str) :
    l.foldl nodeMetricsStep acc =
      ((l.map (fun kv => keyNodeTy kv.1)).foldl promCounterInc acc.1,
        (l.map (fun kv => keyNodeTy kv.1)).foldl promCounterInc acc.2.1,
        (l.map (fun kv => keyNodeId kv.1)).foldl jsSetAdd acc.2.2) := by
  induction l generalizing acc with
  | nil => rfl
  | cons kv l ih =>
      rw [List.foldl_cons, List.map_cons, List.foldl_cons, List.foldl_cons,
        nodeMetricsStep_good acc kv (hgood kv (by simp))]
      exact ih (fun x hx => hgood x (by simp [hx])) _

/-- Value of a tally built by folding increments: initial value plus the
number of increments at that label. -/
theorem foldl_promCounterInc_value (tys : List Str) (m : List (Str × Nat))
    (ty : Str) :
    (jsMapGet (tys.foldl promCounterInc m) ty).getD 0 =
      (jsMapGet m ty).getD 0 + tys.countP (fun x => decide (x = ty)) := by
  induction tys generalizing m with
  | nil => simp
  | cons t tys ih =>
      rw [List.foldl_cons, ih, List.countP_cons]
      by_cases h : t = ty
      · subst h
        simp [promCounterInc, jsMapGet_jsMapSet]
        omega
      · have h2 : ¬ ty = t := fun hh => h hh.symm
        simp [promCounterInc, jsMapGet_jsMapSet, h, h2]

/-- Claim C8 as amended: on a counter map of well-formed keys the
recomputed inventory satisfies totalFlows = number of distinct flowIds
observed and totalNodes = number of distinct nodeIds observed, but the
per-type node count equals the number of counter-map KEYS carrying that
nodeType — a nodeId observed under several flowIds is counted once per
key, not once per node; the per-type count of distinct nodeIds is not what
the code computes.  All three are recomputed on demand from the key set
(they are functions of messageCounters), with no independent tally. -/
theorem claimC8_amended_inventory (c : Collector)
    (hgood : ∀ kv ∈ c.messageCounters, GoodKey kv.1) :
    (calculateRealFlowMetrics c).totalFlows = specDistinctFlowIds c ∧
      (calculateRealNodeMetrics c).totalNodes = specDistinctNodeIds c ∧
      ∀ ty, (jsMapGet (calculateRealNodeMetrics c).nodeTypes ty).getD 0 =
        specKeysOfType c ty := by
  refine ⟨?_, ?_, ?_⟩
  · show (c.messageCounters.foldl flowSetStep []).length = _
    rw [flowFold_good c.messageCounters hgood [], foldl_jsSetAdd_length]
    rfl
  · show (c.messageCounters.foldl nodeMetricsStep ([], [], [])).2.2.length = _
    rw [nodeFold_good c.messageCounters hgood ([], [], [])]
    show ((c.messageCounters.map (fun kv => keyNodeId kv.1)).foldl
      jsSetAdd []).length = _
    rw [foldl_jsSetAdd_length]
    rfl
  · intro ty
    show (jsMapGet
      (c.messageCounters.foldl nodeMetricsStep ([], [], [])).1 ty).getD 0 = _
    rw [nodeFold_good c.messageCounters hgood ([], [], [])]
    show (jsMapGet ((c.messageCounters.map (fun kv => keyNodeTy kv.1)).foldl
      promCounterInc []) ty).getD 0 = _
    rw [foldl_promCounterInc_value]
    simp only [jsMapGet, Option.getD_none, Nat.zero_add, List.countP_map]
    rfl

/-- A collector whose counter map holds the two keys of the C8 scenario,
one nodeId under two flowIds of the same type. -/
def c8wit : Collector :=
  { initCollector with
    messageCounters :=
      [(joinKey "n1".toList "inject".toList "f1".toList, 1),
        (joinKey "n1".toList "inject".toList "f2".toList, 1)] }

/-- Witness for the amended claim C8 at the two-key collector. -/
theorem claimC8_witness :
    (calculateRealFlowMetrics c8wit).totalFlows = specDistinctFlowIds c8wit ∧
      (calculateRealNodeMetrics c8wit).totalNodes = specDistinctNodeIds c8wit ∧
      ∀ ty, (jsMapGet (calculateRealNodeMetrics c8wit).nodeTypes ty).getD 0 =
        specKeysOfType c8wit ty := by
  refine claimC8_amended_inventory c8wit ?_
  intro kv hkv
  have hmem : kv = (joinKey "n1".toList "inject".toList "f1".toList, 1) ∨
      kv = (joinKey "n1".toList "inject".toList "f2".toList, 1) := by
    simpa [c8wit] using hkv
  rcases hmem with rfl | rfl
  · exact ⟨"n1".toList, "inject".toList, "f1".toList, by decide, by decide,
      by decide, by decide, by decide, by decide, by decide, rfl⟩
  · exact ⟨"n1".toList, "inject".toList, "f2".toList, by decide, by decide,
      by decide, by decide, by decide, by decide, by decide, rfl⟩
